import Mathlib

/-!
Verification development for the fragmenta/router HTTP request router.

The Go sources are shallowly embedded: pure Go functions become Lean
functions over `List Char` / `String`, Go maps become association lists,
fallible Go functions return `Except`/`Option`, and the opaque
collaborators (filters, handlers) are modelled by the error value they
return for the dispatched request.  Go's regexp package (an external
library) is modelled by a small executable engine covering the syntax
subset that route compilation produces.
-/

namespace GoRouter

/-- Membership of a character in a character list (models Go index scans over a
character set). -/
def chrMem : List Char → Char → Bool
  | [], _ => false
  | c :: rest, d => c == d || chrMem rest d

/-- Leading-segment equality on character lists: models Go strings.HasPrefix. -/
def listStarts : List Char → List Char → Bool
  | _, [] => true
  | [], _ :: _ => false
  | c :: s, d :: p => c == d && listStarts s p

/-- Model of Go strings.HasPrefix. -/
def strStarts (s pre : String) : Bool := listStarts s.data pre.data

/-- Model of Go strings.Contains for a one-character substring, the only form the
router uses. -/
def strHasChar (s : String) (c : Char) : Bool := chrMem s.data c

/-- Split a character list at the first occurrence of a separator, or `none` when
the separator is absent: models Go strings.SplitN(s, sep, 2). -/
def splitAtChar : List Char → Char → Option (List Char × List Char)
  | [], _ => none
  | c :: rest, sep =>
    if c == sep then some ([], rest)
    else (splitAtChar rest sep).map (fun q => (c :: q.1, q.2))

/-- First index of a predicate hit in a character list. -/
def optFindIdx (P : Char → Bool) : List Char → Option Nat
  | [] => none
  | c :: rest => if P c then some 0 else (optFindIdx P rest).map (· + 1)

/-- The ten decimal digit characters. -/
def goDigitChars : List Char := ['0', '1', '2', '3', '4', '5', '6', '7', '8', '9']

/-- Model of Go strings.LastIndexAny: the index of the last character of s drawn
from chars, or -1.  Go scans from the end; this is modelled by a forward scan of
the reversed list. -/
def lastIndexAny (s : List Char) (chars : List Char) : Int :=
  match optFindIdx (fun c => chrMem chars c) s.reverse with
  | none => -1
  | some j => (s.length : Int) - 1 - (j : Int)

/-- True when every character is a decimal digit. -/
def allDigits : List Char → Bool
  | [] => true
  | c :: r => chrMem goDigitChars c && allDigits r

/-- Accumulate the numeric value of a digit list. -/
def digitsToNat : List Char → Nat → Nat
  | [], acc => acc
  | c :: r, acc => digitsToNat r (acc * 10 + (c.toNat - 48))

/-- Model of Go strconv.ParseInt(s, 10, 64): optional sign, decimal digits and a
64-bit range check; `none` models a non-nil Go error. -/
def goParseInt (s : String) : Option Int :=
  match s.data with
  | [] => none
  | c :: rest =>
    let sd : Int × List Char :=
      if c == '-' then (-1, rest) else if c == '+' then (1, rest) else (1, c :: rest)
    if sd.2.isEmpty then none
    else if allDigits sd.2 then
      let v : Int := sd.1 * Int.ofNat (digitsToNat sd.2 0)
      if v < -(2 : Int) ^ 63 ∨ v > (2 : Int) ^ 63 - 1 then none else some v
    else none

/-- Association list modelling the Go map type underlying Params
(map[string][]string). -/
def ParamsMap := List (String × List String)

/-- Key lookup in a ParamsMap; `none` models the nil slice a Go map yields for a
missing key. -/
def lookupKey : ParamsMap → String → Option (List String)
  | [], _ => none
  | (k, vs) :: rest, key => if k == key then some vs else lookupKey rest key

/-- The Params receiver: `none` models a nil map. -/
def Params := Option ParamsMap

/-- Model of Params.Get (src/params.go): first value for the key, or the empty
string when the container is nil, the key is absent, or its value list is empty. -/
def paramsGet (p : Params) (key : String) : String :=
  match p with
  | none => ""
  | some m =>
    match lookupKey m key with
    | none => ""
    | some [] => ""
    | some (v :: _) => v

/-- Model of Params.GetAll: all values for the key (the Go map index expression). -/
def paramsGetAll (p : Params) (key : String) : List String :=
  match p with
  | none => []
  | some m => (lookupKey m key).getD []

/-- Model of Params.GetInt (src/params.go): truncate the first value just past its
last decimal digit, then parse; every failure degrades to 0. -/
def paramsGetInt (p : Params) (key : String) : Int :=
  let v := paramsGet p key
  let v2 := String.mk (v.data.take (lastIndexAny v.data goDigitChars + 1).toNat)
  match goParseInt v2 with
  | none => 0
  | some i => i

/-- Model of the unexported contains helper (src/params.go). -/
def intListContains : List Int → Int → Bool
  | [], _ => false
  | b :: rest, item => b == item || intListContains rest item

/-- Loop of Params.GetUniqueInts: skip blank strings, coerce parse failures to 0,
append values not seen before. -/
def getUniqueIntsLoop : List String → List Int → List Int
  | [], acc => acc
  | v :: rest, acc =>
    if v == "" then getUniqueIntsLoop rest acc
    else
      let vi := (goParseInt v).getD 0
      if intListContains acc vi then getUniqueIntsLoop rest acc
      else getUniqueIntsLoop rest (acc ++ [vi])

/-- Model of Params.GetUniqueInts (src/params.go). -/
def paramsGetUniqueInts (p : Params) (key : String) : List Int :=
  getUniqueIntsLoop (paramsGetAll p key) []

/-- Quantifier attached to a regular-expression atom. -/
inductive RQuant where
  | one
  | star
  | plus
  | opt
  | rep (lo : Nat) (hi : Option Nat)
deriving DecidableEq

/-- Atom of the regular-expression subset the compiled route patterns use:
literals, character classes, dot, and numbered capturing groups. -/
inductive RAtom where
  | lit (c : Char)
  | cls (neg : Bool) (ranges : List (Char × Char))
  | dot
  | group (idx : Nat) (sub : List (RAtom × RQuant))

/-- Take a leading run of decimal digits. -/
def takeDigits : List Char → List Char × List Char
  | [] => ([], [])
  | c :: rest =>
    if chrMem goDigitChars c then
      let q := takeDigits rest
      (c :: q.1, q.2)
    else ([], c :: rest)

/-- Read a repetition spec after its opening brace: digits, optionally a comma and
more digits, then the closing brace.  `none` makes Go treat the brace as a
literal. -/
def readRepSpec (cs : List Char) : Option (Nat × Option Nat × List Char) :=
  let q := takeDigits cs
  if q.1.isEmpty then none
  else
    let lo := digitsToNat q.1 0
    match q.2 with
    | '\x7d' :: rest => some (lo, some lo, rest)
    | ',' :: rest2 =>
      let q2 := takeDigits rest2
      match q2.2 with
      | '\x7d' :: rest3 =>
        if q2.1.isEmpty then some (lo, none, rest3)
        else some (lo, some (digitsToNat q2.1 0), rest3)
      | _ => none
    | _ => none

/-- Ranges denoted by an escaped character inside a character class. -/
def classEscRanges (c : Char) : List (Char × Char) :=
  if c == 'd' then [('0', '9')]
  else if c == 'n' then [('\n', '\n')]
  else if c == 't' then [('\t', '\t')]
  else [(c, c)]

/-- Read the items of a character class up to its closing bracket. -/
def readClassItems : Nat → List Char → Except String (List (Char × Char) × List Char)
  | 0, _ => .error "character class fuel exhausted"
  | _, [] => .error "missing closing ]"
  | _ + 1, ']' :: rest => .ok ([], rest)
  | f + 1, '\\' :: cs =>
    match cs with
    | [] => .error "trailing backslash in character class"
    | e :: rest =>
      match readClassItems f rest with
      | .error err => .error err
      | .ok q => .ok (classEscRanges e ++ q.1, q.2)
  | f + 1, a :: rest =>
    match rest with
    | '-' :: b :: rest2 =>
      if b == ']' then
        match readClassItems f (b :: rest2) with
        | .error err => .error err
        | .ok q => .ok ((a, a) :: ('-', '-') :: q.1, q.2)
      else if a.toNat ≤ b.toNat then
        match readClassItems f rest2 with
        | .error err => .error err
        | .ok q => .ok ((a, b) :: q.1, q.2)
      else .error "invalid character class range"
    | _ =>
      match readClassItems f rest with
      | .error err => .error err
      | .ok q => .ok ((a, a) :: q.1, q.2)

/-- Scan a sequence of regex items, stopping before a closing parenthesis; gi is
the next capturing-group number.  Unsupported constructs are rejected, as is a
leading repetition operator (as in Go). -/
def scanItems : Nat → List Char → Nat → Except String (List (RAtom × RQuant) × List Char × Nat)
  | 0, _, _ => .error "scan fuel exhausted"
  | _ + 1, [], gi => .ok ([], [], gi)
  | _ + 1, ')' :: rest, gi => .ok ([], ')' :: rest, gi)
  | f + 1, c :: rest, gi =>
    let atomRes : Except String (RAtom × List Char × Nat) :=
      if c == '(' then
        match scanItems f rest (gi + 1) with
        | .error e => .error e
        | .ok (sub, rem, gi2) =>
          match rem with
          | ')' :: rem2 => .ok (RAtom.group gi sub, rem2, gi2)
          | _ => .error "missing closing )"
      else if c == '[' then
        match rest with
        | '^' :: rest2 =>
          match readClassItems f rest2 with
          | .error e => .error e
          | .ok (rs, rem) => .ok (RAtom.cls true rs, rem, gi)
        | _ =>
          match readClassItems f rest with
          | .error e => .error e
          | .ok (rs, rem) => .ok (RAtom.cls false rs, rem, gi)
      else if c == '\\' then
        match rest with
        | [] => .error "trailing backslash at end of expression"
        | e :: rem =>
          if e == 'd' then .ok (RAtom.cls false [('0', '9')], rem, gi)
          else if e == 'D' then .ok (RAtom.cls true [('0', '9')], rem, gi)
          else if e == 'n' then .ok (RAtom.lit '\n', rem, gi)
          else if e == 't' then .ok (RAtom.lit '\t', rem, gi)
          else .ok (RAtom.lit e, rem, gi)
      else if c == '.' then .ok (RAtom.dot, rest, gi)
      else if c == '*' || c == '+' || c == '?' then
        .error "missing argument to repetition operator"
      else if c == '|' || c == '^' || c == '$' then
        .error "regexp construct outside the modelled subset"
      else if c == '\x7b' then
        match readRepSpec rest with
        | some _ => .error "missing argument to repetition operator"
        | none => .ok (RAtom.lit '\x7b', rest, gi)
      else .ok (RAtom.lit c, rest, gi)
    match atomRes with
    | .error e => .error e
    | .ok (a, rem, gi1) =>
      let quantRes : RQuant × List Char :=
        match rem with
        | '*' :: rem2 => (RQuant.star, rem2)
        | '+' :: rem2 => (RQuant.plus, rem2)
        | '?' :: rem2 => (RQuant.opt, rem2)
        | '\x7b' :: rem2 =>
          match readRepSpec rem2 with
          | some (lo, hi, rem3) => (RQuant.rep lo hi, rem3)
          | none => (RQuant.one, rem)
        | _ => (RQuant.one, rem)
      match scanItems f quantRes.2 gi1 with
      | .error e => .error e
      | .ok (items, rem2, gi2) => .ok ((a, quantRes.1) :: items, rem2, gi2)

/-- Compiled regular expression: its source text, whether it is anchored at the
start, its item sequence, and its capturing-group count. -/
structure Regexp where
  src : String
  anchored : Bool
  items : List (RAtom × RQuant)
  ngroups : Nat

/-- Model of Go regexp.Compile on the modelled syntax subset. -/
def regexpCompile (src : String) : Except String Regexp :=
  let cs := src.data
  let ac : Bool × List Char :=
    match cs with
    | '^' :: rest => (true, rest)
    | _ => (false, cs)
  match scanItems (ac.2.length + 2) ac.2 1 with
  | .error e => .error e
  | .ok (items, rem, gi) =>
    match rem with
    | [] => .ok { src := src, anchored := ac.1, items := items, ngroups := gi - 1 }
    | _ => .error "unexpected )"

/-- Character-class membership test. -/
def inRanges (neg : Bool) (ranges : List (Char × Char)) (c : Char) : Bool :=
  let hit := ranges.any (fun r => decide (r.1.toNat ≤ c.toNat) && decide (c.toNat ≤ r.2.toNat))
  if neg then !hit else hit

mutual

/-- Match one atom at the head of the input; each possibility is the remaining
input paired with the group captures produced. -/
def matchAtom : Nat → RAtom → List Char → List (List Char × List (Nat × List Char))
  | 0, _, _ => []
  | _ + 1, RAtom.lit c, s =>
    match s with
    | [] => []
    | d :: rest => if c == d then [(rest, [])] else []
  | _ + 1, RAtom.cls neg rs, s =>
    match s with
    | [] => []
    | d :: rest => if inRanges neg rs d then [(rest, [])] else []
  | _ + 1, RAtom.dot, s =>
    match s with
    | [] => []
    | d :: rest => if d == '\n' then [] else [(rest, [])]
  | f + 1, RAtom.group idx sub, s =>
    (matchItems f sub s).map (fun q =>
      (q.1, q.2 ++ [(idx, s.take (s.length - q.1.length))]))

/-- Greedy repetition of an atom between lo and hi times (no bound when hi is
`none`); possibilities are ordered longest first. -/
def matchRep : Nat → RAtom → Nat → Option Nat → List Char → List (List Char × List (Nat × List Char))
  | 0, _, _, _, _ => []
  | f + 1, a, lo + 1, hi, s =>
    (matchAtom f a s).flatMap (fun q =>
      (matchRep f a lo (hi.map (fun n => n - 1)) q.1).map (fun q2 => (q2.1, q.2 ++ q2.2)))
  | f + 1, a, 0, hi, s =>
    if hi == some 0 then [(s, [])]
    else
      ((matchAtom f a s).flatMap (fun q =>
        if q.1.length == s.length then []
        else (matchRep f a 0 (hi.map (fun n => n - 1)) q.1).map
          (fun q2 => (q2.1, q.2 ++ q2.2)))) ++ [(s, [])]

/-- Match a sequence of quantified atoms; possibilities are in greedy order, so
the head is the match Go's leftmost semantics selects. -/
def matchItems : Nat → List (RAtom × RQuant) → List Char → List (List Char × List (Nat × List Char))
  | 0, _, _ => []
  | _ + 1, [], s => [(s, [])]
  | f + 1, (a, q) :: rest, s =>
    let firsts :=
      match q with
      | RQuant.one => matchAtom f a s
      | RQuant.star => matchRep f a 0 none s
      | RQuant.plus => matchRep f a 1 none s
      | RQuant.opt => matchRep f a 0 (some 1) s
      | RQuant.rep lo hi => matchRep f a lo hi s
    firsts.flatMap (fun q1 =>
      (matchItems f rest q1.1).map (fun q2 => (q2.1, q1.2 ++ q2.2)))

end

/-- Fuel bound for the backtracking matcher; generous for the inputs evaluated
here. -/
def regexFuel (re : Regexp) (s : List Char) : Nat :=
  (s.length + re.src.length + 2) * (re.src.length + 2)

/-- Submatch attempt at a fixed start position: consumed prefix and captures. -/
def submatchAt (re : Regexp) (s : List Char) : Option (List Char × List (Nat × List Char)) :=
  match matchItems (regexFuel re s) re.items s with
  | [] => none
  | q :: _ => some (s.take (s.length - q.1.length), q.2)

/-- Leftmost search over successive start positions. -/
def searchFrom (re : Regexp) : List Char → Option (List Char × List (Nat × List Char))
  | [] => submatchAt re []
  | c :: rest =>
    match submatchAt re (c :: rest) with
    | some r => some r
    | none => searchFrom re rest

/-- Whole-string search respecting the start anchor. -/
def regexpSearch (re : Regexp) (s : String) : Option (List Char × List (Nat × List Char)) :=
  if re.anchored then submatchAt re s.data else searchFrom re s.data

/-- Model of Go Regexp.MatchString. -/
def matchString (re : Regexp) (s : String) : Bool := (regexpSearch re s).isSome

/-- Last capture recorded for a group number, as Go keeps the final iteration. -/
def lookupLastCap : List (Nat × List Char) → Nat → Option (List Char)
  | [], _ => none
  | (j, cs) :: rest, i =>
    match lookupLastCap rest i with
    | some r => some r
    | none => if j == i then some cs else none

/-- Model of Go Regexp.FindStringSubmatch: the whole match followed by one entry
per capturing group (empty when the group did not match). -/
def findStringSubmatch (re : Regexp) (s : String) : Option (List String) :=
  match regexpSearch re s with
  | none => none
  | some (whole, caps) =>
    some (String.mk whole ::
      (List.range re.ngroups).map (fun i =>
        match lookupLastCap caps (i + 1) with
        | none => ""
        | some cs => String.mk cs))

/-- Characters Go regexp.QuoteMeta escapes. -/
def goRegexSpecials : List Char :=
  ['\\', '.', '+', '*', '?', '(', ')', '|', '[', ']', '\x7b', '\x7d', '^', '$']

/-- Model of Go regexp.QuoteMeta over a character list. -/
def quoteMetaList : List Char → List Char
  | [] => []
  | c :: rest =>
    if chrMem goRegexSpecials c then '\\' :: c :: quoteMetaList rest
    else c :: quoteMetaList rest

/-- Loop of findBraces (src/route.go): first-level brace spans as (start, one past
end) pairs, with an error on unbalanced braces. -/
def findBracesLoop : List Char → Nat → Int → Nat → List (Nat × Nat) →
    Except String (List (Nat × Nat))
  | [], _, level, _, acc =>
    if level != 0 then .error "Route error: unbalanced braces" else .ok acc
  | c :: rest, i, level, idx, acc =>
    if c == '\x7b' then
      let level2 := level + 1
      findBracesLoop rest (i + 1) level2 (if level2 == 1 then i else idx) acc
    else if c == '\x7d' then
      let level2 := level - 1
      if level2 == 0 then findBracesLoop rest (i + 1) level2 idx (acc ++ [(idx, i + 1)])
      else if level2 < 0 then .error "Route error: unbalanced braces"
      else findBracesLoop rest (i + 1) level2 idx acc
    else findBracesLoop rest (i + 1) level idx acc

/-- Model of Route.findBraces (src/route.go). -/
def findBraces (s : String) : Except String (List (Nat × Nat)) :=
  findBracesLoop s.data 0 0 0 []

/-- Substring by index pair, modelling a Go slice expression s[a:b]. -/
def subList (s : List Char) (a b : Nat) : List Char := (s.take b).drop a

/-- Loop of compileRegexp (src/route.go): walk the brace spans, split each
interior at its first colon into a parameter name and a verbatim regex fragment,
escape the literal text between spans, and fail when a span has no colon. -/
def buildPartsLoop : List Char → List (Nat × Nat) → Nat → List String → List Char →
    Except String (List String × List Char)
  | pat, [], e, names, out => .ok (names, out ++ quoteMetaList (pat.drop e))
  | pat, (a, b) :: rest, e, names, out =>
    let raw := subList pat e a
    let interior := subList pat (a + 1) (b - 1)
    match splitAtChar interior ':' with
    | none => .error ("Missing name or pattern in " ++ String.mk raw)
    | some (nm, frag) =>
      buildPartsLoop pat rest b (names ++ [String.mk nm])
        (out ++ quoteMetaList raw ++ '(' :: (frag ++ [')']))

/-- Model of Route.compileRegexp (src/route.go): find brace spans, assemble the
start-anchored regex source, and compile it. -/
def compileRegexp (pattern : String) : Except String (List String × Regexp) := do
  let spans ← findBraces pattern
  let q ← buildPartsLoop pattern.data spans 0 [] []
  let re ← regexpCompile (String.mk ('^' :: q.2))
  return (q.1, re)

/-- First index of a character, or -1: models Go strings.Index for a
one-character substring. -/
def strIndexChar (s : List Char) (c : Char) : Int :=
  match optFindIdx (fun d => d == c) s with
  | none => -1
  | some i => Int.ofNat i

/-- Model of shortPattern (src/route.go): at most three characters of the pattern
before its first brace. -/
def shortPattern (p : String) : String :=
  let l := if p.length < 3 then p.length else 3
  let i := strIndexChar p.data '\x7b'
  let l2 := if i > -1 ∧ i < 3 then i.toNat else l
  String.mk (p.data.take l2)

/-- Model of the Route struct (src/route.go).  The Go handler function pointer is
modelled by the hasHandler flag; the handler's behaviour is supplied separately
at dispatch time.  `params` models the transient parsed-parameter map, with
`none` for the nil map. -/
structure Route where
  pattern : String
  patternShort : String
  regexp : Option Regexp
  paramNames : List String
  params : Option (List (String × String))
  redirectPath : String
  redirectStatus : Nat
  methods : List String
  hasHandler : Bool

/-- Model of NewRoute (src/route.go): methods default to GET, and patterns
containing a brace are compiled, propagating the compilation error. -/
def NewRoute (pattern : String) (hasHandler : Bool) : Except String Route :=
  let r : Route := {
    pattern := pattern
    patternShort := shortPattern pattern
    regexp := none
    paramNames := []
    params := none
    redirectPath := ""
    redirectStatus := 0
    methods := ["GET"]
    hasHandler := hasHandler }
  if strHasChar pattern '\x7b' then
    match compileRegexp pattern with
    | .error e => .error e
    | .ok (names, re) => .ok { r with paramNames := names, regexp := some re }
  else .ok r

/-- Membership of a string in a string list, modelling the loop in
Route.MatchMethod. -/
def strListContains : List String → String → Bool
  | [], _ => false
  | v :: rest, m => v == m || strListContains rest m

/-- Model of Route.MatchMethod (src/route.go): the empty method is treated as
GET. -/
def matchMethod (r : Route) (method : String) : Bool :=
  let m := if method == "" then "GET" else method
  strListContains r.methods m

/-- Model of Route.Method: set the method exclusively. -/
def routeMethod (r : Route) (m : String) : Route := { r with methods := [m] }

/-- Model of Route.Get. -/
def routeGet (r : Route) : Route := routeMethod r "GET"

/-- Model of Route.Post. -/
def routePost (r : Route) : Route := routeMethod r "POST"

/-- Model of Route.Put. -/
def routePut (r : Route) : Route := routeMethod r "PUT"

/-- Model of Route.Delete. -/
def routeDelete (r : Route) : Route := routeMethod r "DELETE"

/-- Model of Route.Accept: allow an additional method if not already matched. -/
def routeAccept (r : Route) (m : String) : Route :=
  if !(matchMethod r m) then { r with methods := r.methods ++ [m] } else r

/-- Model of Route.Methods: replace the accepted-method list. -/
def routeMethods (r : Route) (permitted : List String) : Route :=
  { r with methods := permitted }

/-- Model of Route.MatchPath (src/route.go): reject asset paths, require the
short-pattern fast prefix, then regex match or exact string equality. -/
def matchPath (r : Route) (path : String) : Bool :=
  if strStarts path "/assets" then false
  else if r.patternShort.length != 0 && !(strStarts path r.patternShort) then false
  else
    match r.regexp with
    | some re => matchString re path
    | none => r.pattern == path

/-- Loop of Route.Parse: pair each parameter name with its submatch when the
match list is long enough. -/
def collectParamsLoop : List String → Nat → List String → List (String × String)
  | [], _, _ => []
  | key :: rest, i, ms =>
    if i + 1 < ms.length then
      (key, ms.getD (i + 1) "") :: collectParamsLoop rest (i + 1) ms
    else collectParamsLoop rest (i + 1) ms

/-- Model of Route.Parse (src/route.go): set up a fresh params map and fill it
from the regexp submatches of the path. -/
def routeParse (r : Route) (path : String) : Route :=
  match r.regexp with
  | none => { r with params := some [] }
  | some re =>
    match findStringSubmatch re path with
    | none => { r with params := some [] }
    | some ms => { r with params := some (collectParamsLoop r.paramNames 0 ms) }

/-- Model of Route.Reset (src/route.go): clear the parsed params. -/
def routeReset (r : Route) : Route := { r with params := none }

/-- Model of Router.Reset (src/unnamed/part_001): reset every route in the
table. -/
def routerReset (routes : List Route) : List Route := routes.map routeReset

/-- Model of Router.findRoute (src/unnamed/part_002): linear scan returning the
first route whose method and path both match. -/
def findRoute : List Route → String → String → Option Route
  | [], _, _ => none
  | r :: rest, method, path =>
    if matchMethod r method && matchPath r path then some r
    else findRoute rest method path

/-- Outcome of a redirect helper: the response write performed (target path and
status), if any, and the returned error message, if any. -/
structure RedirectOutcome where
  written : Option (String × Nat)
  errMsg : Option String
deriving DecidableEq

/-- Model of RedirectStatus (src/params.go): the redirect is honoured only for a
path that starts with a slash and contains no colon; otherwise an error is
returned and nothing is written. -/
def redirectStatus (path : String) (status : Nat) : RedirectOutcome :=
  if strStarts path "/" && !(strHasChar path ':') then
    { written := some (path, status), errMsg := none }
  else
    { written := none, errMsg := some ("Ignoring redirect to external path " ++ path) }

/-- Model of Redirect (src/params.go): RedirectStatus with status 302. -/
def redirect (path : String) : RedirectOutcome := redirectStatus path 302

/-- Split a character list on slashes, modelling the element decomposition inside
Go path.Clean. -/
def splitSlashLoop : List Char → List Char → List String
  | [], cur => [String.mk cur.reverse]
  | c :: rest, cur =>
    if c == '/' then String.mk cur.reverse :: splitSlashLoop rest []
    else splitSlashLoop rest (c :: cur)

/-- Element processing of Go path.Clean: drop empty and dot elements, let dotdot
pop a previous element, keep dotdot at the front of a relative path.  The
accumulator holds the output elements in reverse. -/
def cleanElems (rooted : Bool) : List String → List String → List String
  | [], out => out.reverse
  | c :: rest, out =>
    if c == "" || c == "." then cleanElems rooted rest out
    else if c == ".." then
      match out with
      | [] => if rooted then cleanElems rooted rest [] else cleanElems rooted rest [".."]
      | top :: outRest =>
        if top == ".." then cleanElems rooted rest (".." :: top :: outRest)
        else cleanElems rooted rest outRest
    else cleanElems rooted rest (c :: out)

/-- Join path elements with slashes. -/
def joinSlash : List String → String
  | [] => ""
  | [x] => x
  | x :: y :: rest => x ++ "/" ++ joinSlash (y :: rest)

/-- Model of Go path.Clean. -/
def pathClean (p : String) : String :=
  if p == "" then "."
  else
    let rooted := strStarts p "/"
    let s := joinSlash (cleanElems rooted (splitSlashLoop p.data []) [])
    if rooted then "/" ++ s
    else if s == "" then "." else s

/-- Path canonicalization performed at the top of Router.ServeHTTP
(src/unnamed/part_002): clean the path and guarantee a leading slash. -/
def canonicalize (rawPath : String) : String :=
  let c := pathClean rawPath
  if c.length == 0 then "/"
  else if !(strStarts c "/") then "/" ++ c
  else c

/-- Per-request context handed to filters and handlers (model of
ConcreteContext). -/
structure Ctx where
  path : String
  route : Option Route

/-- Observable trace of one ServeHTTP dispatch (src/unnamed/part_002): the
redirect written, how many filters ran, whether the route handler or the file
handler ran, and the error the error handler received. -/
structure DispatchResult where
  redirect : Option (String × Nat)
  filtersRun : Nat
  handlerInvoked : Bool
  fileHandlerInvoked : Bool
  errorHandled : Option String

/-- Filter loop of ServeHTTP: run filters in order, stopping at the first error;
returns how many filters ran and that error. -/
def runFilters : List (Ctx → Option String) → Ctx → Nat × Option String
  | [], _ => (0, none)
  | f :: fs, c =>
    match f c with
    | some e => (1, some e)
    | none =>
      let q := runFilters fs c
      (q.1 + 1, q.2)

/-- Tail of ServeHTTP after the redirect check: build the context, run the
filters (a filter error goes to the error handler and stops the dispatch), then
run the route handler if present, else the file handler, sending a handler error
to the error handler.  The route table is returned unchanged: this ServeHTTP
performs no reset. -/
def serveAfterRoute (routes : List Route) (filters : List (Ctx → Option String))
    (handlerFn fileHandlerFn : Ctx → Option String) (canonicalPath : String)
    (route : Option Route) : DispatchResult × List Route :=
  let handlerPresent :=
    match route with
    | some rt => rt.hasHandler
    | none => false
  let context : Ctx := { path := canonicalPath, route := route }
  let fr := runFilters filters context
  match fr.2 with
  | some e =>
    ({ redirect := none, filtersRun := fr.1, handlerInvoked := false,
       fileHandlerInvoked := false, errorHandled := some e }, routes)
  | none =>
    if handlerPresent then
      ({ redirect := none, filtersRun := fr.1, handlerInvoked := true,
         fileHandlerInvoked := false, errorHandled := handlerFn context }, routes)
    else
      ({ redirect := none, filtersRun := fr.1, handlerInvoked := false,
         fileHandlerInvoked := true, errorHandled := fileHandlerFn context }, routes)

/-- Model of Router.ServeHTTP (src/unnamed/part_002): canonicalize the path, look
up a route, short-circuit a redirect route, then hand off to the filter and
handler phases.  The second component is the route table after the dispatch. -/
def serveHTTP (routes : List Route) (filters : List (Ctx → Option String))
    (handlerFn fileHandlerFn : Ctx → Option String) (method rawPath : String) :
    DispatchResult × List Route :=
  let canonicalPath := canonicalize rawPath
  match findRoute routes method canonicalPath with
  | some rt =>
    if rt.redirectStatus != 0 then
      ({ redirect := some (rt.redirectPath, rt.redirectStatus), filtersRun := 0,
         handlerInvoked := false, fileHandlerInvoked := false, errorHandled := none },
       routes)
    else serveAfterRoute routes filters handlerFn fileHandlerFn canonicalPath (some rt)
  | none => serveAfterRoute routes filters handlerFn fileHandlerFn canonicalPath none

/-- Claim-side predicate following the spec's words for redirect targets: begins
with a single path separator (one slash, not two) and contains no scheme
delimiter. -/
def specSingleSepTarget (path : String) : Bool :=
  strStarts path "/" && !(strStarts path "//") && !(strHasChar path ':')

/-- Claim-side truncation for the lenient integer accessor: drop the maximal
suffix containing no decimal digit, keeping the value through its last digit. -/
def specTruncateAtLastDigit (v : String) : String :=
  String.mk ((v.data.reverse.dropWhile (fun c => !(chrMem goDigitChars c))).reverse)

/-- Length kept when truncating after the last hit of a predicate, expressed on
the reversed list. -/
def truncLen (P : Char → Bool) (rl : List Char) : Nat :=
  match optFindIdx P rl with
  | none => 0
  | some j => rl.length - j

/-- Builder calls available on a route at registration time. -/
inductive BuilderOp where
  | get
  | post
  | put
  | delete
  | method (m : String)
  | accept (m : String)
  | methods (l : List String)

/-- Apply one builder call to a route. -/
def applyOp (r : Route) : BuilderOp → Route
  | .get => routeGet r
  | .post => routePost r
  | .put => routePut r
  | .delete => routeDelete r
  | .method m => routeMethod r m
  | .accept m => routeAccept r m
  | .methods l => routeMethods r l

/-- Apply a sequence of builder calls in order. -/
def applyOps (r : Route) : List BuilderOp → Route
  | [] => r
  | op :: rest => applyOps (applyOp r op) rest

/-- Index and error of the first filter that fails on a context. -/
def firstFilterErr : List (Ctx → Option String) → Ctx → Option (Nat × String)
  | [], _ => none
  | f :: fs, c =>
    match f c with
    | some e => some (0, e)
    | none => (firstFilterErr fs c).map (fun q => (q.1 + 1, q.2))

/-- A concrete literal route used in witnesses. -/
def baseRouteX : Route := {
  pattern := "/x"
  patternShort := "/x"
  regexp := none
  paramNames := []
  params := none
  redirectPath := ""
  redirectStatus := 0
  methods := ["GET"]
  hasHandler := true }

/-- C2: compiling the pattern /tags/(id:[0-9]+)/destroy — braces written as
parentheses here — yields the start-anchored regex source
`^/tags/([0-9]+)/destroy` with parameter names exactly [id]; the compiled route
accepts /tags/42/destroy extracting id = 42 and rejects /tags/abc/destroy. -/
theorem tags_pattern_compilation :
    (compileRegexp "/tags/\x7bid:[0-9]+\x7d/destroy").toOption.map
        (fun q => (q.2.src, q.2.anchored, q.1)) =
      some ("^/tags/([0-9]+)/destroy", true, ["id"]) ∧
    (NewRoute "/tags/\x7bid:[0-9]+\x7d/destroy" true).toOption.map
        (fun r => (matchPath r "/tags/42/destroy",
                   (routeParse r "/tags/42/destroy").params,
                   matchPath r "/tags/abc/destroy")) =
      some (true, some [("id", "42")], false) := by
  exact ⟨rfl, rfl⟩

/-- C5 counterexample: RedirectStatus honours the protocol-relative target
//evil.example/x — a target that does not begin with a single separator, since
it begins with two — writing the redirect and returning no error. -/
theorem redirect_double_slash_honoured :
    redirectStatus "//evil.example/x" 302 =
      { written := some ("//evil.example/x", 302), errMsg := none } ∧
    specSingleSepTarget "//evil.example/x" = false := by
  exact ⟨rfl, rfl⟩

/-- C5 amended: RedirectStatus writes a redirect exactly when the target begins
with a path separator and contains no colon, honouring the given target, and
otherwise returns an error and writes nothing; http://evil.example/x is rejected
with an error and no write, and Redirect sends /safe/path with status 302. -/
theorem redirectStatus_internal_only :
    (∀ path status,
      ((redirectStatus path status).written.isSome =
          (strStarts path "/" && !(strHasChar path ':')) ∧
        (redirectStatus path status).errMsg.isSome =
          !(strStarts path "/" && !(strHasChar path ':')) ∧
        ((redirectStatus path status).written = none ∨
          (redirectStatus path status).written = some (path, status)))) ∧
    redirectStatus "http://evil.example/x" 302 =
      { written := none,
        errMsg := some "Ignoring redirect to external path http://evil.example/x" } ∧
    redirect "/safe/path" = { written := some ("/safe/path", 302), errMsg := none } := by
  refine ⟨?_, rfl, rfl⟩
  intro path status
  cases hb : strStarts path "/" && !(strHasChar path ':') <;>
    simp [redirectStatus, hb]

/-- C6: GetUniqueInts keeps a zero value drawn from the string 0: on the values
1, 1, 0, 2 it returns [1, 0, 2] and not the documented [1, 2]; only blank
strings are skipped, so zero values are not dropped. -/
theorem getUniqueInts_keeps_zero :
    paramsGetUniqueInts (some [("page", ["1", "1", "0", "2"])]) "page" = [1, 0, 2] ∧
    paramsGetUniqueInts (some [("page", ["1", "1", "0", "2"])]) "page" ≠ [1, 2] := by
  exact ⟨rfl, by decide⟩

/-- C8: the ServeHTTP of src/unnamed/part_002 performs no reset: a
parsed-parameter value left on a route by Route.Parse survives a completed
dispatch unchanged, while Router.Reset — the mechanism of src/unnamed/part_001,
which this dispatcher never invokes — would clear it. -/
theorem serveHTTP_keeps_route_params :
    ((NewRoute "/t/\x7bid:[0-9]+\x7d" true).toOption.map (fun r0 =>
      let r1 := routeParse r0 "/t/7"
      (r1.params,
       (serveHTTP [r1] [] (fun _ => none) (fun _ => none) "GET" "/t/9").2.map
         (fun r => r.params),
       (serveHTTP [r1] [] (fun _ => none) (fun _ => none) "GET" "/t/9").1.handlerInvoked,
       (routerReset [r1]).map (fun r => r.params)))) =
    some (some [("id", "7")], [some [("id", "7")]], true, [none]) := by
  rfl

/-- C10: Params.Get is total and never fails: it yields the empty string on a
nil container, a missing key, or an empty value list, and otherwise the first
element of the key's value list. -/
theorem paramsGet_total (p : Params) (key : String) :
    (p = none → paramsGet p key = "") ∧
    (∀ m, p = some m → lookupKey m key = none → paramsGet p key = "") ∧
    (∀ m, p = some m → lookupKey m key = some [] → paramsGet p key = "") ∧
    (∀ m v vs, p = some m → lookupKey m key = some (v :: vs) → paramsGet p key = v) := by
  refine ⟨?_, ?_, ?_, ?_⟩
  · intro h; subst h; rfl
  · intro m h hl; subst h; simp [paramsGet, hl]
  · intro m h hl; subst h; simp [paramsGet, hl]
  · intro m v vs h hl; subst h; simp [paramsGet, hl]

/-- Witness for C10 at concrete containers. -/
theorem paramsGet_total_witness :
    paramsGet (some [("a", ["x", "y"])]) "a" = "x" ∧ paramsGet none "a" = "" := by
  exact ⟨(paramsGet_total (some [("a", ["x", "y"])]) "a").2.2.2 [("a", ["x", "y"])]
      "x" ["y"] rfl rfl,
    (paramsGet_total none "a").1 rfl⟩

/-- C1: Router.findRoute returns the first route in registration order whose
accepted methods contain the request method (the empty method standing for GET)
and whose path matcher accepts the canonicalized path; it returns none exactly
when no route matches both, so a later, more specific match never overrides an
earlier one. -/
theorem findRoute_first_match (routes : List Route) (method path : String) :
    (∀ rt, findRoute routes method path = some rt →
      ∃ i : Nat, routes[i]? = some rt ∧
        (matchMethod rt method && matchPath rt path) = true ∧
        ∀ j : Nat, j < i → ∀ rt2, routes[j]? = some rt2 →
          (matchMethod rt2 method && matchPath rt2 path) = false) ∧
    ((findRoute routes method path = none) ↔
      ∀ rt ∈ routes, (matchMethod rt method && matchPath rt path) = false) ∧
    (∀ r : Route, matchMethod r "" = matchMethod r "GET") := by
  refine ⟨?_, ?_, ?_⟩
  · induction routes with
    | nil => intro rt h; simp [findRoute] at h
    | cons r rest ih =>
      intro rt h
      simp only [findRoute] at h
      by_cases hm : (matchMethod r method && matchPath r path) = true
      · rw [if_pos hm] at h
        injection h with h
        subst h
        exact ⟨0, by simp, hm, by intro j hj; omega⟩
      · rw [if_neg hm] at h
        obtain ⟨i, hget, hmatch, hbefore⟩ := ih rt h
        refine ⟨i + 1, by simpa using hget, hmatch, ?_⟩
        intro j hj rt2 hget2
        cases j with
        | zero =>
          simp only [List.getElem?_cons_zero, Option.some.injEq] at hget2
          subst hget2
          exact Bool.eq_false_iff.mpr hm
        | succ k =>
          exact hbefore k (by omega) rt2 (by simpa using hget2)
  · induction routes with
    | nil => simp [findRoute]
    | cons r rest ih =>
      simp only [findRoute]
      by_cases hm : (matchMethod r method && matchPath r path) = true
      · rw [if_pos hm]
        constructor
        · intro h; exact absurd h (by simp)
        · intro h; exact absurd (h r (List.mem_cons_self r rest)) (by simp [hm])
      · rw [if_neg hm, ih]
        constructor
        · intro h rt hmem
          rcases List.mem_cons.mp hmem with he | hmem2
          · subst he; exact Bool.eq_false_iff.mpr hm
          · exact h rt hmem2
        · intro h rt hmem; exact h rt (List.mem_cons_of_mem r hmem)
  · intro r; rfl

/-- Witness for C1: at a concrete two-route table the first entry is selected. -/
theorem findRoute_first_match_witness :
    ∃ i : Nat, [baseRouteX, baseRouteX][i]? = some baseRouteX ∧
      (matchMethod baseRouteX "GET" && matchPath baseRouteX "/x") = true ∧
      ∀ j : Nat, j < i → ∀ rt2, [baseRouteX, baseRouteX][j]? = some rt2 →
        (matchMethod rt2 "GET" && matchPath rt2 "/x") = false := by
  exact (findRoute_first_match [baseRouteX, baseRouteX] "GET" "/x").1 baseRouteX rfl

/-- Relation between the ServeHTTP filter loop and the first failing filter. -/
theorem runFilters_firstErr (filters : List (Ctx → Option String)) (c : Ctx)
    (i : Nat) (e : String) (h : firstFilterErr filters c = some (i, e)) :
    runFilters filters c = (i + 1, some e) := by
  induction filters generalizing i with
  | nil => simp [firstFilterErr] at h
  | cons f fs ih =>
    simp only [firstFilterErr] at h
    cases hf : f c with
    | some e2 =>
      rw [hf] at h
      simp only [Option.some.injEq, Prod.mk.injEq] at h
      obtain ⟨h1, h2⟩ := h
      subst h2
      simp [runFilters, hf, ← h1]
    | none =>
      rw [hf] at h
      simp only [] at h
      rcases Option.map_eq_some'.mp h with ⟨⟨i0, e0⟩, hk, hkj⟩
      simp only [Prod.mk.injEq] at hkj
      obtain ⟨h1, h2⟩ := hkj
      subst h2
      have hrec := ih i0 hk
      simp [runFilters, hf, hrec, ← h1]

/-- C4: when a filter returns an error during a ServeHTTP dispatch, the matched
route's handler is never invoked, neither is the file handler, no filter after
the failing one runs, and the error handler is invoked with exactly the error
the failing filter returned. -/
theorem filter_error_short_circuits
    (routes : List Route) (filters : List (Ctx → Option String))
    (handlerFn fileHandlerFn : Ctx → Option String) (method rawPath : String)
    (i : Nat) (e : String)
    (hnr : ∀ rt, findRoute routes method (canonicalize rawPath) = some rt →
      rt.redirectStatus = 0)
    (hfe : firstFilterErr filters
      { path := canonicalize rawPath,
        route := findRoute routes method (canonicalize rawPath) } = some (i, e)) :
    (serveHTTP routes filters handlerFn fileHandlerFn method rawPath).1 =
      { redirect := none, filtersRun := i + 1, handlerInvoked := false,
        fileHandlerInvoked := false, errorHandled := some e } := by
  simp only [serveHTTP]
  cases hfr : findRoute routes method (canonicalize rawPath) with
  | none =>
    rw [hfr] at hfe
    simp only [serveAfterRoute, runFilters_firstErr filters _ i e hfe]
  | some rt =>
    have h0 := hnr rt hfr
    rw [hfr] at hfe
    simp only [serveAfterRoute, h0, runFilters_firstErr filters _ i e hfe]
    simp

/-- Witness for C4 with one failing filter and an empty route table. -/
theorem filter_error_short_circuits_witness :
    (serveHTTP [] [fun _ => some "boom"] (fun _ => none) (fun _ => none) "GET" "/x").1 =
      { redirect := none, filtersRun := 1, handlerInvoked := false,
        fileHandlerInvoked := false, errorHandled := some "boom" } := by
  exact filter_error_short_circuits [] [fun _ => some "boom"] (fun _ => none)
    (fun _ => none) "GET" "/x" 0 "boom"
    (by intro rt h; simp [findRoute] at h) rfl

/-- C9 counterexample: Route.Methods accepts an empty list, so a builder sequence
can empty the accepted-method set of a freshly constructed route. -/
theorem routeMethods_empty_counterexample :
    ((NewRoute "/x" true).toOption.map (fun r =>
      (applyOps r [BuilderOp.methods []]).methods)) = some [] := by
  rfl

/-- C9 amended: a newly constructed route's accepted-method set is exactly GET,
and it stays nonempty under every sequence of builder calls in which each
Methods call passes a nonempty list. -/
theorem builder_methods_nonempty :
    (∀ pattern hasH r, NewRoute pattern hasH = .ok r → r.methods = ["GET"]) ∧
    (∀ (r : Route) (ops : List BuilderOp), r.methods ≠ [] →
      (∀ l, BuilderOp.methods l ∈ ops → l ≠ []) →
      (applyOps r ops).methods ≠ []) := by
  constructor
  · intro pattern hasH r h
    unfold NewRoute at h
    by_cases hb : strHasChar pattern '\x7b' = true
    · rw [if_pos hb] at h
      cases hc : compileRegexp pattern with
      | error e => rw [hc] at h; exact absurd h (by simp)
      | ok q =>
        rw [hc] at h
        simp only [Except.ok.injEq] at h
        subst h
        rfl
    · rw [if_neg hb] at h
      simp only [Except.ok.injEq] at h
      subst h
      rfl
  · intro r ops
    induction ops generalizing r with
    | nil => intro h _; exact h
    | cons op rest ih =>
      intro hne hops
      simp only [applyOps]
      apply ih
      · cases op with
        | get => simp [applyOp, routeGet, routeMethod]
        | post => simp [applyOp, routePost, routeMethod]
        | put => simp [applyOp, routePut, routeMethod]
        | delete => simp [applyOp, routeDelete, routeMethod]
        | method m => simp [applyOp, routeMethod]
        | accept m =>
          simp only [applyOp, routeAccept]
          cases hmm : !(matchMethod r m) with
          | false => simpa [hmm] using hne
          | true => simp [hmm]
        | methods l =>
          simpa [applyOp, routeMethods] using hops l (List.mem_cons_self _ _)
      · intro l hl; exact hops l (List.mem_cons_of_mem op hl)

/-- Witness for C9 amended at a concrete route and builder sequence. -/
theorem builder_methods_nonempty_witness :
    baseRouteX.methods = ["GET"] ∧
    (applyOps baseRouteX [BuilderOp.accept "POST", BuilderOp.put]).methods ≠ [] := by
  constructor
  · exact (builder_methods_nonempty).1 "/x" true baseRouteX rfl
  · exact (builder_methods_nonempty).2 baseRouteX
      [BuilderOp.accept "POST", BuilderOp.put] (by decide)
      (by intro l hl; simp at hl)

/-- The span walk of compileRegexp fails exactly on a span whose interior has no
colon. -/
theorem buildPartsLoop_isOk_false_iff (pat : List Char) (spans : List (Nat × Nat)) :
    ∀ e names out,
      ((buildPartsLoop pat spans e names out).isOk = false ↔
        ∃ s ∈ spans, splitAtChar (subList pat (s.1 + 1) (s.2 - 1)) ':' = none) := by
  induction spans with
  | nil => intro e names out; simp [buildPartsLoop, Except.isOk, Except.toBool]
  | cons s rest ih =>
    intro e names out
    obtain ⟨a, b⟩ := s
    simp only [buildPartsLoop]
    cases hsp : splitAtChar (subList pat (a + 1) (b - 1)) ':' with
    | none =>
      exact iff_of_true rfl ⟨(a, b), List.mem_cons_self _ _, hsp⟩
    | some q =>
      obtain ⟨nm, frag⟩ := q
      rw [ih b (names ++ [String.mk nm]) (out ++ quoteMetaList (subList pat e a) ++
        '(' :: (frag ++ [')']))]
      constructor
      · rintro ⟨s2, hmem, hs2⟩; exact ⟨s2, List.mem_cons_of_mem _ hmem, hs2⟩
      · rintro ⟨s2, hmem, hs2⟩
        rcases List.mem_cons.mp hmem with he | hm2
        · subst he; rw [hsp] at hs2; cases hs2
        · exact ⟨s2, hm2, hs2⟩

/-- C3 counterexample: a pattern whose only brace span is balanced and contains a
colon, yet whose compilation fails because the assembled regular expression is
invalid; so compilation failure is not characterized by unbalanced braces or a
missing colon alone. -/
theorem compile_fail_balanced_braces :
    findBraces "/x/\x7bid:[0-9\x7d" = .ok [(3, 12)] ∧
    (splitAtChar (subList ("/x/\x7bid:[0-9\x7d").data 4 11) ':').isSome = true ∧
    (compileRegexp "/x/\x7bid:[0-9\x7d").isOk = false := by
  exact ⟨rfl, rfl, rfl⟩

/-- The bind of two Except computations fails exactly when the first fails or it
succeeds and the continuation fails on its value. -/
theorem except_bind_isOk_false {α β : Type} (x : Except String α)
    (f : α → Except String β) :
    ((x >>= f).isOk = false ↔
      (x.isOk = false ∨ ∃ a, x = .ok a ∧ (f a).isOk = false)) := by
  cases x with
  | error e => simp [Except.isOk, Except.toBool, Bind.bind, Except.bind]
  | ok a => simp [Except.isOk, Except.toBool, Bind.bind, Except.bind]

/-- C3 amended: pattern compilation fails exactly when the braces are unbalanced,
a first-level brace span contains no colon, or the assembled regular expression
itself fails to compile; the pattern slash-a-slash-brace-id-slash-b fails on its
unbalanced braces, while nested braces inside a regex fragment, as in the
two-to-four-digit id pattern, compile with the single parameter id. -/
theorem compileRegexp_failure_characterization :
    (∀ pattern : String,
      ((compileRegexp pattern).isOk = false ↔
        ((findBraces pattern).isOk = false ∨
         ∃ spans, findBraces pattern = .ok spans ∧
           ((∃ s ∈ spans,
               splitAtChar (subList pattern.data (s.1 + 1) (s.2 - 1)) ':' = none) ∨
            ∃ q, buildPartsLoop pattern.data spans 0 [] [] = .ok q ∧
              (regexpCompile (String.mk ('^' :: q.2))).isOk = false)))) ∧
    (compileRegexp "/a/\x7bid/b").isOk = false ∧
    (compileRegexp "/a/\x7bid:\\d\x7b2,4\x7d\x7d").toOption.map (fun q => q.1) =
      some ["id"] := by
  refine ⟨?_, rfl, rfl⟩
  intro pattern
  unfold compileRegexp
  rw [except_bind_isOk_false]
  constructor
  · rintro (h1 | ⟨spans, hsp, h2⟩)
    · exact Or.inl h1
    · rw [except_bind_isOk_false] at h2
      rcases h2 with h3 | ⟨q, hq, h4⟩
      · exact Or.inr ⟨spans, hsp, Or.inl
          ((buildPartsLoop_isOk_false_iff pattern.data spans 0 [] []).mp h3)⟩
      · rw [except_bind_isOk_false] at h4
        rcases h4 with h5 | ⟨re, hre, h6⟩
        · exact Or.inr ⟨spans, hsp, Or.inr ⟨q, hq, h5⟩⟩
        · simp [Except.isOk, Except.toBool, pure, Except.pure] at h6
  · rintro (h1 | ⟨spans, hsp, hrest⟩)
    · exact Or.inl h1
    · refine Or.inr ⟨spans, hsp, ?_⟩
      rw [except_bind_isOk_false]
      rcases hrest with hmc | ⟨q, hq, hrc⟩
      · exact Or.inl
          ((buildPartsLoop_isOk_false_iff pattern.data spans 0 [] []).mpr hmc)
      · refine Or.inr ⟨q, hq, ?_⟩
        rw [except_bind_isOk_false]
        exact Or.inl hrc

/-- A found index lies below the list length. -/
theorem optFindIdx_lt_length (P : Char → Bool) (l : List Char) (j : Nat)
    (h : optFindIdx P l = some j) : j < l.length := by
  induction l generalizing j with
  | nil => simp [optFindIdx] at h
  | cons c rest ih =>
    simp only [optFindIdx] at h
    by_cases hc : P c = true
    · rw [if_pos hc] at h
      injection h with h
      subst h
      simp
    · rw [if_neg hc] at h
      rcases Option.map_eq_some'.mp h with ⟨k, hk, hkj⟩
      have := ih k hk
      simp only [List.length_cons]
      omega

/-- Taking a reversed list up to a found index agrees with dropping the failing
run from the other end. -/
theorem reverse_take_truncLen (P : Char → Bool) (rl : List Char) :
    rl.reverse.take (truncLen P rl) = (rl.dropWhile (fun c => !(P c))).reverse := by
  induction rl with
  | nil => rfl
  | cons c rest ih =>
    cases hc : P c with
    | true =>
      have h1 : truncLen P (c :: rest) = rest.length + 1 := by
        simp [truncLen, optFindIdx, hc]
      have h2 : List.dropWhile (fun x => !(P x)) (c :: rest) = c :: rest := by
        simp [List.dropWhile, hc]
      rw [h1, h2]
      exact List.take_of_length_le (by simp)
    | false =>
      have h2 : List.dropWhile (fun x => !(P x)) (c :: rest) =
          List.dropWhile (fun x => !(P x)) rest := by
        simp [List.dropWhile, hc]
      rw [h2, ← ih]
      cases hfi : optFindIdx P rest with
      | none =>
        have h1 : truncLen P (c :: rest) = 0 := by
          simp [truncLen, optFindIdx, hc, hfi]
        have h3 : truncLen P rest = 0 := by simp [truncLen, hfi]
        rw [h1, h3]
        simp
      | some j =>
        have hj := optFindIdx_lt_length P rest j hfi
        have h1 : truncLen P (c :: rest) = rest.length - j := by
          simp [truncLen, optFindIdx, hc, hfi]
        have h3 : truncLen P rest = rest.length - j := by simp [truncLen, hfi]
        rw [h1, h3, List.reverse_cons]
        exact List.take_append_of_le_length (by simp)

/-- The GetInt slice through the last digit equals the claim-side truncation that
drops the digit-free suffix. -/
theorem take_lastIndexAny (v : List Char) :
    v.take (lastIndexAny v goDigitChars + 1).toNat =
      (v.reverse.dropWhile (fun c => !(chrMem goDigitChars c))).reverse := by
  have h := reverse_take_truncLen (fun c => chrMem goDigitChars c) v.reverse
  rw [List.reverse_reverse] at h
  have heq : (lastIndexAny v goDigitChars + 1).toNat =
      truncLen (fun c => chrMem goDigitChars c) v.reverse := by
    cases hfi : optFindIdx (fun c => chrMem goDigitChars c) v.reverse with
    | none =>
      have e1 : lastIndexAny v goDigitChars = -1 := by
        unfold lastIndexAny
        rw [hfi]
      have e2 : truncLen (fun c => chrMem goDigitChars c) v.reverse = 0 := by
        unfold truncLen
        rw [hfi]
      rw [e1, e2]
      rfl
    | some j =>
      have hj := optFindIdx_lt_length _ _ _ hfi
      have e1 : lastIndexAny v goDigitChars = (v.length : Int) - 1 - (j : Int) := by
        unfold lastIndexAny
        rw [hfi]
      have e2 : truncLen (fun c => chrMem goDigitChars c) v.reverse =
          v.reverse.length - j := by
        unfold truncLen
        rw [hfi]
      rw [e1, e2]
      simp only [List.length_reverse] at hj ⊢
      omega
  rw [heq]
  exact h

/-- C7: get-as-integer is lenient and total: it returns 42 for the value 42abc
and 0 for the value abc, and in general equals parsing the first value truncated
through its last decimal digit, degrading to 0 whenever that remainder does not
parse. -/
theorem paramsGetInt_lenient :
    paramsGetInt (some [("q", ["42abc"])]) "q" = 42 ∧
    paramsGetInt (some [("q", ["abc"])]) "q" = 0 ∧
    (∀ p key,
      paramsGetInt p key =
        match goParseInt (specTruncateAtLastDigit (paramsGet p key)) with
        | none => 0
        | some i => i) := by
  refine ⟨rfl, rfl, ?_⟩
  intro p key
  simp only [paramsGetInt, specTruncateAtLastDigit, take_lastIndexAny]

end GoRouter
